import Mathlib

/-!
Shallow embedding of the ZKTeco push-protocol server in src/attendance.py.

The program is a Flask application with three routes.  The only nontrivial
handler is cdata (lines 80-180), which serves both the device handshake
(GET with options=all) and the tab-delimited ATTLOG batch upload (POST with
table=ATTLOG, persisted into an sqlite table inside one transaction).
We model strings as Lean String values, the sqlite table attendance_logs as
a list of rows plus the AUTOINCREMENT counter, and possible sqlite errors
by an oracle saying which insert (and whether the commit) raises.
Python str.strip and str.splitlines are modelled over the ASCII whitespace
and newline characters that the protocol uses.
-/

namespace Attendance

/-- Whitespace characters removed by Python str.strip, ASCII part:
space, tab, newline, carriage return, vertical tab, form feed. -/
def isSpace (c : Char) : Bool :=
  c = ' ' || c = '\t' || c = '\n' || c = '\r' ||
  c = Char.ofNat 11 || c = Char.ofNat 12

/-- Strip leading and trailing whitespace from a character list. -/
def stripChars (l : List Char) : List Char :=
  ((l.dropWhile isSpace).reverse.dropWhile isSpace).reverse

/-- Model of Python str.strip (line 127 of attendance.py). -/
def pyStrip (s : String) : String := ⟨stripChars s.data⟩

/-- Helper for splitlines: accumulates the current line in reverse. -/
def splitlinesAux : List Char → List Char → List String
  | [], cur => if cur = [] then [] else [⟨cur.reverse⟩]
  | '\r' :: '\n' :: rest, cur => (⟨cur.reverse⟩ : String) :: splitlinesAux rest []
  | c :: rest, cur =>
    if c = '\n' || c = '\r' then (⟨cur.reverse⟩ : String) :: splitlinesAux rest []
    else splitlinesAux rest (c :: cur)

/-- Model of Python str.splitlines (line 127): splits on LF, CR and CRLF,
with no empty line produced after a terminal line break. -/
def splitlines (s : String) : List String := splitlinesAux s.data []

/-- Helper for splitting on the tab character, keeping empty fields. -/
def splitTabAux : List Char → List Char → List String
  | [], cur => [⟨cur.reverse⟩]
  | c :: rest, cur =>
    if c = '\t' then (⟨cur.reverse⟩ : String) :: splitTabAux rest []
    else splitTabAux rest (c :: cur)

/-- Model of Python line.split with a tab separator (line 141). -/
def splitTab (s : String) : List String := splitTabAux s.data []

/-- One decoded attendance event (spec section 3): field 0 of a line is
user_id, field 1 is punch_time, further fields are ignored. -/
structure PunchRecord where
  user_id : String
  punch_time : String
deriving DecidableEq, Repr

/-- Parse one stripped line (lines 141-145): split on tab; the line is
well-formed iff it yields at least two fields. -/
def parseLine (ln : String) : Option PunchRecord :=
  match splitTab ln with
  | u :: t :: _ => some ⟨u, t⟩
  | _ => none

/-- The list comprehension of line 127: strip every line of the body and
keep the non-blank ones. -/
def strippedLines (body : String) : List String :=
  ((splitlines body).map pyStrip).filter (fun t => t != "")

/-- The record decoder run over the stripped lines: accepted records in
order, accepted count, skipped count (lines 140-155 without the store). -/
def decodeLines : List String → List PunchRecord × Nat × Nat
  | [] => ([], 0, 0)
  | ln :: rest =>
    let r := decodeLines rest
    match parseLine ln with
    | some p => (p :: r.1, r.2.1 + 1, r.2.2)
    | none => (r.1, r.2.1, r.2.2 + 1)

/-- Record Decoder contract of spec section 4.1 as realised by the code. -/
def decode (body : String) : List PunchRecord × Nat × Nat :=
  decodeLines (strippedLines body)

/-- One row of the sqlite table attendance_logs (lines 61-70): id is the
AUTOINCREMENT surrogate key, is_synced is inserted as 0 (line 151), and
received_at is the server timestamp assigned at insertion. -/
structure Row where
  id : Nat
  user_id : String
  punch_time : String
  device_serial : String
  is_synced : Nat
  received_at : Nat
deriving DecidableEq, Repr

/-- The durable attendance store: committed rows plus the next value of
the AUTOINCREMENT surrogate-key counter. -/
structure Store where
  rows : List Row
  nextId : Nat
deriving DecidableEq, Repr

/-- Oracle describing which sqlite calls of one request raise an error:
insertErr k means the k-th INSERT of the request raises, commitErr means
the final commit raises.  A raised error is caught at lines 160-169. -/
structure DbOracle where
  insertErr : Nat → Bool
  commitErr : Bool

/-- The INSERT of lines 148-151 inside the open transaction: appends one
row carrying the next surrogate key and advances the counter. -/
def insertRow (st : Store) (u t sn : String) (now : Nat) : Store :=
  { rows := st.rows ++ [⟨st.nextId, u, t, sn, 0, now⟩], nextId := st.nextId + 1 }

/-- The loop of lines 140-155 run inside the transaction: walks the
stripped lines, inserting each well-formed one and counting; returns none
when the oracle makes an INSERT raise (the state is then rolled back by
the caller), otherwise the uncommitted state and the count. -/
def runInserts (o : DbOracle) (sn : String) (now : Nat) :
    List String → Store → Nat → Option (Store × Nat)
  | [], st, count => some (st, count)
  | ln :: rest, st, count =>
    match parseLine ln with
    | some r =>
      if o.insertErr count then none
      else runInserts o sn now rest
        (insertRow st r.user_id r.punch_time sn now) (count + 1)
    | none => runInserts o sn now rest st count

/-- HTTP method of a request to the data endpoint. -/
inductive Method
  | GET
  | POST
deriving DecidableEq, Repr

/-- The query parameters the handler reads (lines 85-87 and 122): each is
absent or present with a string value. -/
structure Args where
  SN : Option String
  options : Option String
  table : Option String
deriving DecidableEq, Repr

/-- Model of Python str.upper at line 122, on the ASCII letters the
protocol table names use. -/
def pyUpper (s : String) : String := ⟨s.data.map Char.toUpper⟩

/-- The ten handshake response lines of lines 107-118, in order. -/
def handshakeLines (sn : String) (now : Nat) : List String :=
  ["GET OPTION FROM: " ++ sn,
   "Stamp=9999",
   "OpStamp=" ++ toString now,
   "ErrorDelay=30",
   "Delay=10",
   "TransTimes=00:00;23:59",
   "TransInterval=1",
   "TransFlag=1111000000",
   "Realtime=1",
   "Encrypt=None"]

/-- Model of the Python newline join of line 119: no trailing newline. -/
def joinNl : List String → String
  | [] => ""
  | [l] => l
  | l :: ls => l ++ "\n" ++ joinNl ls

/-- The ATTLOG upload branch (lines 125-172): decode and insert inside one
transaction; on any sqlite error roll back and answer OK: 0, otherwise
commit and answer OK with the accepted count. -/
def attlogUpload (sn body : String) (now : Nat) (o : DbOracle) (st : Store) :
    String × Store :=
  let lines := strippedLines body
  if lines.isEmpty then ("OK: 0", st)
  else
    match runInserts o sn now lines st 0 with
    | none => ("OK: 0", st)
    | some (st', count) =>
      if o.commitErr then ("OK: 0", st)
      else ("OK: " ++ toString count, st')

/-- The cdata handler of lines 80-180: handshake for a GET with
options=all, ATTLOG upload for a POST whose upper-cased table name is
ATTLOG, generic OK acknowledgment for any other POST, and OK otherwise. -/
def cdata (m : Method) (args : Args) (rawBody : String) (now : Nat)
    (o : DbOracle) (st : Store) : String × Store :=
  let device_sn := args.SN.getD "UNKNOWN"
  if m = Method.GET ∧ args.options = some "all" then
    (joinNl (handshakeLines device_sn now), st)
  else
    let table := pyUpper (args.table.getD "")
    if m = Method.POST ∧ table = "ATTLOG" then
      attlogUpload device_sn rawBody now o st
    else if m = Method.POST then ("OK", st)
    else ("OK", st)

/-- The getrequest heartbeat handler (lines 186-200): always OK, never
touches the store. -/
def getrequest (st : Store) : String × Store := ("OK", st)

/-- The root fallback handler (lines 206-211): always OK, never touches
the store. -/
def root (st : Store) : String × Store := ("OK", st)

/-- Split a character list on the LF character, keeping empty pieces, the
current piece accumulated in reverse. -/
def splitNlAux : List Char → List Char → List String
  | [], cur => [⟨cur.reverse⟩]
  | c :: rest, cur =>
    if c = '\n' then (⟨cur.reverse⟩ : String) :: splitNlAux rest []
    else splitNlAux rest (c :: cur)

/-- Split a string on the LF character: the lines of a newline-joined
response body. -/
def splitNl (s : String) : List String := splitNlAux s.data []

/-- The rows a successful batch of records appends, starting at surrogate
key i: used to state what the transaction of lines 139-157 commits. -/
def mkRows (sn : String) (now : Nat) : List PunchRecord → Nat → List Row
  | [], _ => []
  | r :: rs, i => ⟨i, r.user_id, r.punch_time, sn, 0, now⟩ :: mkRows sn now rs (i + 1)

/-- An oracle under which no sqlite call raises. -/
def noErr : DbOracle := ⟨fun _ => false, false⟩

/-- The decoder returns the well-formed records in order together with the
count of well-formed and of malformed lines. -/
lemma decodeLines_eq (ls : List String) :
    decodeLines ls =
      (ls.filterMap parseLine, (ls.filterMap parseLine).length,
       (ls.filter fun ln => (parseLine ln).isNone).length) := by
  induction ls with
  | nil => rfl
  | cons ln rest ih =>
    cases h : parseLine ln with
    | none => simp [decodeLines, ih, h, List.filterMap_cons, List.filter_cons]
    | some p => simp [decodeLines, ih, h, List.filterMap_cons, List.filter_cons]

/-- Well-formed and malformed line counts sum to the line count. -/
lemma wf_add_malformed (ls : List String) :
    (ls.filterMap parseLine).length +
      (ls.filter fun ln => (parseLine ln).isNone).length = ls.length := by
  induction ls with
  | nil => rfl
  | cons ln rest ih =>
    cases h : parseLine ln <;>
      simp [List.filterMap_cons, List.filter_cons, h, ih] <;> omega

/-- A line parses iff splitting it on tab yields at least two fields. -/
lemma parseLine_isSome_iff (ln : String) :
    (parseLine ln).isSome ↔ 2 ≤ (splitTab ln).length := by
  unfold parseLine
  cases h : splitTab ln with
  | nil => simp
  | cons u tl =>
    cases tl with
    | nil => simp
    | cons t rest => simp; try omega

/-- Length of the row block built for a batch. -/
lemma mkRows_length (sn : String) (now : Nat) (rs : List PunchRecord) (i : Nat) :
    (mkRows sn now rs i).length = rs.length := by
  induction rs generalizing i with
  | nil => rfl
  | cons r rest ih => simp [mkRows, ih]

/-- The surrogate keys of a freshly built row block are consecutive. -/
lemma mkRows_map_id (sn : String) (now : Nat) (rs : List PunchRecord) (i : Nat) :
    (mkRows sn now rs i).map Row.id = List.range' i rs.length := by
  induction rs generalizing i with
  | nil => rfl
  | cons r rest ih => simp [mkRows, List.range', ih]

/-- Every row of a freshly built block carries the fields of one record of
the batch, the given device serial and timestamp, and is_synced zero. -/
lemma mem_mkRows (sn : String) (now : Nat) (rs : List PunchRecord) (i : Nat)
    (r : Row) (hr : r ∈ mkRows sn now rs i) :
    ∃ p ∈ rs, r.user_id = p.user_id ∧ r.punch_time = p.punch_time ∧
      r.device_serial = sn ∧ r.is_synced = 0 ∧ r.received_at = now := by
  induction rs generalizing i with
  | nil => simp [mkRows] at hr
  | cons p rest ih =>
    simp only [mkRows, List.mem_cons] at hr
    rcases hr with h | h
    · exact ⟨p, by simp, by simp [h]⟩
    · obtain ⟨q, hq, hfields⟩ := ih (i + 1) h
      exact ⟨q, by simp [hq], hfields⟩

/-- When the insert loop finishes without a raised error, the uncommitted
state holds exactly the rows of the well-formed lines, appended in order
with consecutive surrogate keys, and the count is the number inserted. -/
lemma runInserts_some (o : DbOracle) (sn : String) (now : Nat)
    (ls : List String) (st : Store) (count : Nat) (st' : Store) (c : Nat)
    (h : runInserts o sn now ls st count = some (st', c)) :
    st'.rows = st.rows ++ mkRows sn now (ls.filterMap parseLine) st.nextId ∧
      st'.nextId = st.nextId + (ls.filterMap parseLine).length ∧
      c = count + (ls.filterMap parseLine).length := by
  induction ls generalizing st count with
  | nil =>
    simp [runInserts] at h
    simp [h.1, h.2, List.filterMap_nil, mkRows]
  | cons ln rest ih =>
    cases hp : parseLine ln with
    | none =>
      simp only [runInserts, hp] at h
      simpa [List.filterMap_cons, hp] using ih st count h
    | some p =>
      simp only [runInserts, hp] at h
      by_cases he : o.insertErr count
      · simp [he] at h
      · simp only [he, if_false] at h
        obtain ⟨h1, h2, h3⟩ := ih _ _ h
        refine ⟨?_, ?_, ?_⟩
        · simp [h1, insertRow, List.filterMap_cons, hp, mkRows]
        · simp [h2, insertRow, List.filterMap_cons, hp]; omega
        · simp [h3, List.filterMap_cons, hp]; omega

/-- The first character surviving dropWhile fails the predicate. -/
lemma dropWhile_head_not (l : List Char) (c : Char) (cs : List Char)
    (h : l.dropWhile isSpace = c :: cs) : isSpace c = false := by
  induction l with
  | nil => simp [List.dropWhile] at h
  | cons a rest ih =>
    by_cases ha : isSpace a
    · exact ih (by simpa [List.dropWhile, ha] using h)
    · rw [List.dropWhile_cons_of_neg (by simpa using ha)] at h
      cases h
      simpa using ha

/-- The stripped list is a prefix of the list with only the leading
whitespace dropped. -/
lemma stripChars_prefix (l : List Char) :
    ∃ junk, stripChars l ++ junk = l.dropWhile isSpace := by
  refine ⟨((l.dropWhile isSpace).reverse.takeWhile isSpace).reverse, ?_⟩
  unfold stripChars
  rw [← List.reverse_append, List.takeWhile_append_dropWhile, List.reverse_reverse]

/-- A nonempty stripped line starts with a non-whitespace character. -/
lemma stripChars_head (l : List Char) (c : Char) (cs : List Char)
    (h : stripChars l = c :: cs) : isSpace c = false := by
  obtain ⟨junk, hj⟩ := stripChars_prefix l
  rw [h] at hj
  exact dropWhile_head_not l c (cs ++ junk) hj.symm

/-- The first field produced by the tab splitter extends the accumulator
with a tab-free piece. -/
lemma splitTabAux_head (l acc : List Char) :
    ∃ pre tl, splitTabAux l acc = (⟨acc.reverse ++ pre⟩ : String) :: tl ∧
      '\t' ∉ pre := by
  induction l generalizing acc with
  | nil => exact ⟨[], [], by simp [splitTabAux], by simp⟩
  | cons c rest ih =>
    by_cases hc : c = '\t'
    · exact ⟨[], splitTabAux rest [], by simp [splitTabAux, hc], by simp⟩
    · obtain ⟨pre, tl, heq, hpre⟩ := ih (c :: acc)
      refine ⟨c :: pre, tl, ?_, ?_⟩
      · simp only [splitTabAux, if_neg hc, heq]
        simp
      · simp only [List.mem_cons, not_or]
        exact ⟨fun hx => hc hx.symm, hpre⟩

/-- Every line kept by the comprehension of line 127 is a stripped,
nonempty line of the body. -/
lemma mem_strippedLines (body ln : String) (h : ln ∈ strippedLines body) :
    ln ≠ "" ∧ ∃ l₀, ln = pyStrip l₀ := by
  unfold strippedLines at h
  rw [List.mem_filter] at h
  obtain ⟨hmem, hne⟩ := h
  rw [List.mem_map] at hmem
  obtain ⟨l₀, _, rfl⟩ := hmem
  exact ⟨by simpa using hne, l₀, rfl⟩

/-- Every record the decoder accepts has a nonempty user_id that contains
no tab and does not start with whitespace. -/
lemma userId_ok (body : String) (p : PunchRecord)
    (h : p ∈ (strippedLines body).filterMap parseLine) :
    p.user_id ≠ "" ∧ '\t' ∉ p.user_id.data ∧
      ∀ c cs, p.user_id.data = c :: cs → isSpace c = false := by
  rw [List.mem_filterMap] at h
  obtain ⟨ln, hln, hparse⟩ := h
  obtain ⟨hne, l₀, hstrip⟩ := mem_strippedLines body ln hln
  have hdata : ln.data = stripChars l₀.data := by rw [hstrip]; rfl
  cases hd : ln.data with
  | nil =>
    refine absurd (String.ext ?_) hne
    rw [hd]
  | cons c cs =>
    have hc : isSpace c = false := stripChars_head l₀.data c cs (by rw [← hdata, hd])
    have hctab : c ≠ '\t' := by
      intro hx; rw [hx] at hc; simp [isSpace] at hc
    have hsplit : splitTab ln = splitTabAux cs [c] := by
      unfold splitTab
      rw [hd]
      simp [splitTabAux, hctab]
    obtain ⟨pre, tl, heq, hpre⟩ := splitTabAux_head cs [c]
    cases tl with
    | nil =>
      have h2 : parseLine ln = none := by
        unfold parseLine
        rw [hsplit, heq]
      rw [h2] at hparse
      exact absurd hparse (by simp)
    | cons t rest =>
      have h2 : parseLine ln = some (⟨⟨c :: pre⟩, t⟩ : PunchRecord) := by
        unfold parseLine
        rw [hsplit, heq]
        rfl
      rw [h2] at hparse
      have hpx : p = ⟨⟨c :: pre⟩, t⟩ := (Option.some_inj.mp hparse).symm
      subst hpx
      refine ⟨?_, ?_, ?_⟩
      · intro hx
        have hdx := congrArg String.data hx
        simp at hdx
      · show '\t' ∉ c :: pre
        simp only [List.mem_cons, not_or]
        exact ⟨fun hx => hctab hx.symm, hpre⟩
      · intro c' cs' hdd
        have : c' = c := by
          have : c :: pre = c' :: cs' := hdd
          cases this
          rfl
        rw [this]
        exact hc

/-- Splitting a newline-free piece yields one line. -/
lemma splitNlAux_no_nl (l : List Char) (cur : List Char)
    (h : ∀ c ∈ l, c ≠ '\n') :
    splitNlAux l cur = [⟨cur.reverse ++ l⟩] := by
  induction l generalizing cur with
  | nil => simp [splitNlAux]
  | cons c rest ih =>
    have hc : c ≠ '\n' := h c (by simp)
    simp only [splitNlAux, if_neg hc]
    rw [ih (c :: cur) (fun d hd => h d (by simp [hd]))]
    simp

/-- Splitting past a newline-free piece followed by LF emits that piece. -/
lemma splitNlAux_append (l₁ : List Char) (cur rest : List Char)
    (h : ∀ c ∈ l₁, c ≠ '\n') :
    splitNlAux (l₁ ++ '\n' :: rest) cur =
      (⟨cur.reverse ++ l₁⟩ : String) :: splitNlAux rest [] := by
  induction l₁ generalizing cur with
  | nil => simp [splitNlAux]
  | cons c tl ih =>
    have hc : c ≠ '\n' := h c (by simp)
    simp only [List.cons_append, splitNlAux, if_neg hc]
    show splitNlAux (tl ++ '\n' :: rest) (c :: cur) = _
    rw [ih (c :: cur) (fun d hd => h d (by simp [hd]))]
    simp

/-- Splitting a newline join on LF recovers the joined lines, provided no
line contains LF. -/
lemma splitNl_joinNl (ls : List String) (hne : ls ≠ [])
    (h : ∀ l ∈ ls, ∀ c ∈ l.data, c ≠ '\n') :
    splitNl (joinNl ls) = ls := by
  induction ls with
  | nil => exact absurd rfl hne
  | cons l tl ih =>
    cases tl with
    | nil =>
      unfold splitNl joinNl
      rw [splitNlAux_no_nl l.data [] (h l (by simp))]
      simp
    | cons l' tl' =>
      have hjoin : joinNl (l :: l' :: tl') = l ++ "\n" ++ joinNl (l' :: tl') := rfl
      unfold splitNl
      rw [hjoin]
      have hdata : (l ++ "\n" ++ joinNl (l' :: tl')).data =
          l.data ++ '\n' :: (joinNl (l' :: tl')).data := by
        have hnl : ("\n" : String).data = ['\n'] := rfl
        rw [String.data_append, String.data_append, hnl, List.append_assoc]
        rfl
      rw [hdata, splitNlAux_append l.data [] _ (h l (by simp))]
      have := ih (by simp) (fun x hx => h x (by simp [hx]))
      unfold splitNl at this
      rw [this]
      simp

/-- Nat.digitChar never produces a newline. -/
lemma digitChar_ne_nl (n : Nat) : Nat.digitChar n ≠ '\n' := by
  by_cases h : n < 16
  · interval_cases n <;> decide
  · have hstar : Nat.digitChar n = '*' := by
      unfold Nat.digitChar
      repeat rw [if_neg (by omega)]
    rw [hstar]
    decide

/-- Nat.toDigitsCore only prepends digit characters, never a newline. -/
lemma toDigitsCore_ne_nl (fuel : Nat) :
    ∀ (n : Nat) (acc : List Char), (∀ c ∈ acc, c ≠ '\n') →
      ∀ c ∈ Nat.toDigitsCore 10 fuel n acc, c ≠ '\n' := by
  induction fuel with
  | zero => intro n acc hacc c hc; exact hacc c hc
  | succ fuel ih =>
    intro n acc hacc c hc
    rw [Nat.toDigitsCore] at hc
    by_cases hz : n / 10 = 0
    · simp only [hz, if_pos rfl] at hc
      rcases List.mem_cons.mp hc with h | h
      · rw [h]; exact digitChar_ne_nl _
      · exact hacc c h
    · simp only [if_neg hz] at hc
      refine ih (n / 10) (Nat.digitChar (n % 10) :: acc) ?_ c hc
      intro d hd
      rcases List.mem_cons.mp hd with h | h
      · rw [h]; exact digitChar_ne_nl _
      · exact hacc d h

/-- The decimal rendering of a natural number contains no newline. -/
lemma repr_ne_nl (n : Nat) : ∀ c ∈ (toString n).data, c ≠ '\n' := by
  intro c hc
  have : (toString n).data = Nat.toDigitsCore 10 (n + 1) n [] := rfl
  rw [this] at hc
  exact toDigitsCore_ne_nl (n + 1) n [] (by simp) c hc

/-- No handshake line contains a newline when the device serial has none. -/
lemma handshakeLines_no_nl (sn : String) (now : Nat)
    (hsn : ∀ c ∈ sn.data, c ≠ '\n') :
    ∀ l ∈ handshakeLines sn now, ∀ c ∈ l.data, c ≠ '\n' := by
  have hpre : ∀ c ∈ ("GET OPTION FROM: " : String).data, c ≠ '\n' := by decide
  have hop : ∀ c ∈ ("OpStamp=" : String).data, c ≠ '\n' := by decide
  have hconst : ∀ l ∈ (["Stamp=9999", "ErrorDelay=30", "Delay=10",
      "TransTimes=00:00;23:59", "TransInterval=1", "TransFlag=1111000000",
      "Realtime=1", "Encrypt=None"] : List String),
      ∀ c ∈ l.data, c ≠ '\n' := by decide
  intro l hl c hc
  unfold handshakeLines at hl
  simp only [List.mem_cons, List.not_mem_nil, or_false] at hl
  rcases hl with h | h | h | h | h | h | h | h | h | h
  · subst h
    rw [String.data_append] at hc
    rcases List.mem_append.mp hc with h' | h'
    · exact hpre c h'
    · exact hsn c h'
  · subst h; exact hconst _ (by simp) c hc
  · subst h
    rw [String.data_append] at hc
    rcases List.mem_append.mp hc with h' | h'
    · exact hop c h'
    · exact repr_ne_nl now c h'
  all_goals (subst h; exact hconst _ (by simp) c hc)

/-- A GET with options=all takes the handshake branch. -/
lemma cdata_get_handshake (args : Args) (body : String) (now : Nat)
    (o : DbOracle) (st : Store) (hopt : args.options = some "all") :
    cdata Method.GET args body now o st =
      (joinNl (handshakeLines (args.SN.getD "UNKNOWN") now), st) := by
  simp only [cdata]
  rw [if_pos ⟨trivial, hopt⟩]

/-- A POST whose upper-cased table is ATTLOG takes the upload branch,
whatever the other query parameters are. -/
lemma cdata_post_attlog (args : Args) (body : String) (now : Nat)
    (o : DbOracle) (st : Store) (htab : pyUpper (args.table.getD "") = "ATTLOG") :
    cdata Method.POST args body now o st =
      attlogUpload (args.SN.getD "UNKNOWN") body now o st := by
  simp only [cdata]
  rw [if_neg (by simp), if_pos ⟨trivial, htab⟩]

/-- A POST for any other table is acknowledged with OK, untouched store. -/
lemma cdata_post_other (args : Args) (body : String) (now : Nat)
    (o : DbOracle) (st : Store) (htab : pyUpper (args.table.getD "") ≠ "ATTLOG") :
    cdata Method.POST args body now o st = ("OK", st) := by
  simp only [cdata]
  rw [if_neg (by simp), if_neg (by simp [htab]), if_pos trivial]

/-- A GET that is not a handshake falls through to the OK fallback. -/
lemma cdata_get_other (args : Args) (body : String) (now : Nat)
    (o : DbOracle) (st : Store) (hopt : args.options ≠ some "all") :
    cdata Method.GET args body now o st = ("OK", st) := by
  simp only [cdata]
  rw [if_neg (by simp [hopt]), if_neg (by simp), if_neg (by simp)]

/-- The upload branch either answers OK: 0 with the store untouched, or
commits the state the insert loop produced and reports its count. -/
lemma attlogUpload_cases (sn body : String) (now : Nat) (o : DbOracle)
    (st : Store) :
    attlogUpload sn body now o st = ("OK: 0", st) ∨
      ∃ st' count,
        runInserts o sn now (strippedLines body) st 0 = some (st', count) ∧
        o.commitErr = false ∧
        attlogUpload sn body now o st = ("OK: " ++ toString count, st') := by
  unfold attlogUpload
  by_cases hemp : (strippedLines body).isEmpty
  · left
    rw [if_pos hemp]
  · rw [if_neg hemp]
    cases hrun : runInserts o sn now (strippedLines body) st 0 with
    | none => left; rfl
    | some p =>
      obtain ⟨st', count⟩ := p
      by_cases hc : o.commitErr
      · left
        simp [hc]
      · right
        refine ⟨st', count, rfl, by simpa using hc, ?_⟩
        simp [hc]

/-- Inversion of the line parser: a parsed record carries the first two
tab fields of its line verbatim. -/
lemma parseLine_eq_some (ln : String) (p : PunchRecord)
    (h : parseLine ln = some p) :
    ∃ rest, splitTab ln = p.user_id :: p.punch_time :: rest := by
  unfold parseLine at h
  cases hs : splitTab ln with
  | nil => rw [hs] at h; exact absurd h (by simp)
  | cons u tl =>
    cases tl with
    | nil => rw [hs] at h; exact absurd h (by simp)
    | cons t rest =>
      rw [hs] at h
      have h' : some (⟨u, t⟩ : PunchRecord) = some p := h
      have hp : p = ⟨u, t⟩ := (Option.some_inj.mp h').symm
      subst hp
      exact ⟨rest, rfl⟩

/-- Any row present after a request was either already in the store or
was inserted by the ATTLOG branch from one well-formed line, with the
serial of the request and the request timestamp. -/
lemma cdata_new_row (m : Method) (args : Args) (body : String) (now : Nat)
    (o : DbOracle) (st : Store) (r : Row)
    (hr : r ∈ (cdata m args body now o st).2.rows) :
    r ∈ st.rows ∨
      ∃ p ∈ (strippedLines body).filterMap parseLine,
        r.user_id = p.user_id ∧ r.punch_time = p.punch_time ∧
        r.device_serial = args.SN.getD "UNKNOWN" ∧ r.is_synced = 0 ∧
        r.received_at = now := by
  cases m with
  | GET =>
    by_cases hopt : args.options = some "all"
    · rw [cdata_get_handshake args body now o st hopt] at hr
      exact Or.inl hr
    · rw [cdata_get_other args body now o st hopt] at hr
      exact Or.inl hr
  | POST =>
    by_cases htab : pyUpper (args.table.getD "") = "ATTLOG"
    · rw [cdata_post_attlog args body now o st htab] at hr
      rcases attlogUpload_cases (args.SN.getD "UNKNOWN") body now o st with
        hcase | ⟨st', count, hrun, hcom, heq⟩
      · rw [hcase] at hr
        exact Or.inl hr
      · rw [heq] at hr
        obtain ⟨hrows, _, _⟩ :=
          runInserts_some o (args.SN.getD "UNKNOWN") now _ st 0 st' count hrun
        rw [hrows] at hr
        rcases List.mem_append.mp hr with h | h
        · exact Or.inl h
        · obtain ⟨p, hp, hfields⟩ := mem_mkRows _ now _ st.nextId r h
          exact Or.inr ⟨p, hp, hfields⟩
    · rw [cdata_post_other args body now o st htab] at hr
      exact Or.inl hr

/-- C3: for every upload body, accepted plus skipped equals the number of
non-blank lines; a line is accepted iff splitting on tab yields at least
two fields; and the accepted sequence is exactly the well-formed lines in
order, so a malformed line never aborts the rest of the batch. -/
theorem C3_decode_counts (body : String) :
    (decode body).2.1 + (decode body).2.2 = (strippedLines body).length ∧
    (decode body).1 = (strippedLines body).filterMap parseLine ∧
    ∀ ln : String, (parseLine ln).isSome ↔ 2 ≤ (splitTab ln).length := by
  refine ⟨?_, ?_, parseLine_isSome_iff⟩
  · unfold decode
    rw [decodeLines_eq]
    exact wf_add_malformed _
  · unfold decode
    rw [decodeLines_eq]

/-- C1: an ATTLOG upload either leaves the stored rows unchanged or
appends exactly one new row per well-formed decoded record, their
surrogate keys strictly increasing in insertion order. -/
theorem C1_persist_atomic (args : Args) (body : String) (now : Nat)
    (o : DbOracle) (st : Store)
    (htab : pyUpper (args.table.getD "") = "ATTLOG") :
    (cdata Method.POST args body now o st).2.rows = st.rows ∨
      ∃ new, (cdata Method.POST args body now o st).2.rows = st.rows ++ new ∧
        new.length = (decode body).2.1 ∧
        (new.map Row.id).Pairwise (· < ·) := by
  rw [cdata_post_attlog args body now o st htab]
  rcases attlogUpload_cases (args.SN.getD "UNKNOWN") body now o st with
    hcase | ⟨st', count, hrun, hcom, heq⟩
  · left
    rw [hcase]
  · right
    obtain ⟨hrows, _, _⟩ :=
      runInserts_some o (args.SN.getD "UNKNOWN") now _ st 0 st' count hrun
    refine ⟨mkRows (args.SN.getD "UNKNOWN") now
      ((strippedLines body).filterMap parseLine) st.nextId, ?_, ?_, ?_⟩
    · rw [heq]
      exact hrows
    · rw [mkRows_length]
      unfold decode
      rw [decodeLines_eq]
    · rw [mkRows_map_id]
      exact List.pairwise_lt_range' _ _

/-- C1 witness: a concrete two-line batch with one malformed line. -/
theorem C1_persist_atomic_witness :
    (cdata Method.POST ⟨some "S", none, some "AttLog"⟩ "u\tt\nbad" 7 noErr
        ⟨[], 5⟩).2.rows = (⟨[], 5⟩ : Store).rows ∨
      ∃ new, (cdata Method.POST ⟨some "S", none, some "AttLog"⟩ "u\tt\nbad" 7
          noErr ⟨[], 5⟩).2.rows = (⟨[], 5⟩ : Store).rows ++ new ∧
        new.length = (decode "u\tt\nbad").2.1 ∧
        (new.map Row.id).Pairwise (· < ·) :=
  C1_persist_atomic ⟨some "S", none, some "AttLog"⟩ "u\tt\nbad" 7 noErr
    ⟨[], 5⟩ (by decide)

/-- C2: when the persistence layer fails during an ATTLOG upload, the
store is left exactly as before the request and the response is OK: 0. -/
theorem C2_failure_rollback (args : Args) (body : String) (now : Nat)
    (o : DbOracle) (st : Store)
    (htab : pyUpper (args.table.getD "") = "ATTLOG")
    (hfail : runInserts o (args.SN.getD "UNKNOWN") now (strippedLines body)
        st 0 = none ∨ o.commitErr = true) :
    cdata Method.POST args body now o st = ("OK: 0", st) := by
  rw [cdata_post_attlog args body now o st htab]
  unfold attlogUpload
  by_cases hemp : (strippedLines body).isEmpty
  · rw [if_pos hemp]
  · rw [if_neg hemp]
    rcases hfail with hrun | hcom
    · rw [hrun]
    · cases hrun : runInserts o (args.SN.getD "UNKNOWN") now
        (strippedLines body) st 0 with
      | none => rfl
      | some p =>
        obtain ⟨st', count⟩ := p
        simp [hcom]

/-- C2 witness: a one-record batch whose INSERT raises. -/
theorem C2_failure_rollback_witness :
    cdata Method.POST ⟨some "S", none, some "ATTLOG"⟩ "u\tt" 7
      ⟨fun _ => true, false⟩ ⟨[], 5⟩ = ("OK: 0", ⟨[], 5⟩) :=
  C2_failure_rollback ⟨some "S", none, some "ATTLOG"⟩ "u\tt" 7
    ⟨fun _ => true, false⟩ ⟨[], 5⟩ (by decide) (Or.inl (by decide))

/-- C4: a handshake response is exactly the ten configuration lines of
section 6 joined by a newline with no trailing newline, the first line
naming the SN query parameter, or UNKNOWN when SN is absent. -/
theorem C4_handshake_lines (args : Args) (body : String) (now : Nat)
    (o : DbOracle) (st : Store) (hopt : args.options = some "all")
    (hsn : ∀ c ∈ (args.SN.getD "UNKNOWN").data, c ≠ '\n') :
    (cdata Method.GET args body now o st).1 =
      joinNl (handshakeLines (args.SN.getD "UNKNOWN") now) ∧
    splitNl (cdata Method.GET args body now o st).1 =
      handshakeLines (args.SN.getD "UNKNOWN") now ∧
    (handshakeLines (args.SN.getD "UNKNOWN") now).length = 10 ∧
    (handshakeLines (args.SN.getD "UNKNOWN") now).head? =
      some ("GET OPTION FROM: " ++ args.SN.getD "UNKNOWN") := by
  rw [cdata_get_handshake args body now o st hopt]
  refine ⟨rfl, ?_, rfl, rfl⟩
  exact splitNl_joinNl _ (by simp [handshakeLines])
    (handshakeLines_no_nl _ now hsn)

/-- C4 witness: the concrete handshake of scenario 4. -/
theorem C4_handshake_lines_witness :
    (cdata Method.GET ⟨some "ABC123", some "all", none⟩ "" 100 noErr
        ⟨[], 0⟩).1 = joinNl (handshakeLines "ABC123" 100) ∧
    splitNl (cdata Method.GET ⟨some "ABC123", some "all", none⟩ "" 100 noErr
        ⟨[], 0⟩).1 = handshakeLines "ABC123" 100 ∧
    (handshakeLines "ABC123" 100).length = 10 ∧
    (handshakeLines "ABC123" 100).head? =
      some ("GET OPTION FROM: " ++ "ABC123") :=
  C4_handshake_lines ⟨some "ABC123", some "all", none⟩ "" 100 noErr ⟨[], 0⟩
    rfl (by decide)

/-- C5: the table comparison is case-insensitive; a POST is classified by
table name whatever the other parameters are; an absent table upper-cases
to the empty string, so such a POST gets the generic OK and a
non-handshake GET gets the fallback OK. -/
theorem C5_classification (args : Args) (body : String) (now : Nat)
    (o : DbOracle) (st : Store) :
    (pyUpper (args.table.getD "") = "ATTLOG" →
      cdata Method.POST args body now o st =
        attlogUpload (args.SN.getD "UNKNOWN") body now o st) ∧
    (∀ t₁ t₂ : String, pyUpper t₁ = pyUpper t₂ →
      cdata Method.POST { args with table := some t₁ } body now o st =
        cdata Method.POST { args with table := some t₂ } body now o st) ∧
    (args.table = none →
      pyUpper (args.table.getD "") = "" ∧
      cdata Method.POST args body now o st = ("OK", st)) ∧
    (args.options ≠ some "all" →
      cdata Method.GET args body now o st = ("OK", st)) := by
  refine ⟨fun htab => cdata_post_attlog args body now o st htab, ?_, ?_, ?_⟩
  · intro t₁ t₂ ht
    by_cases h1 : pyUpper t₁ = "ATTLOG"
    · rw [cdata_post_attlog _ body now o st (by simpa using h1),
        cdata_post_attlog _ body now o st (by simp [← ht, h1])]
    · rw [cdata_post_other _ body now o st (by simpa using h1),
        cdata_post_other _ body now o st (by simp [← ht]; exact h1)]
  · intro hnone
    refine ⟨by rw [hnone]; rfl, ?_⟩
    refine cdata_post_other args body now o st ?_
    rw [hnone]
    decide
  · exact fun hopt => cdata_get_other args body now o st hopt

/-- C5 witness: a POST with options=all and a mixed-case table is an
upload, a POST without a table answers OK, a GET without options=all
answers OK. -/
theorem C5_classification_witness :
    cdata Method.POST ⟨some "S", some "all", some "AttLog"⟩ "u\tt" 3 noErr
        ⟨[], 0⟩ = attlogUpload "S" "u\tt" 3 noErr ⟨[], 0⟩ ∧
    cdata Method.POST ⟨some "S", some "all", some "attlog"⟩ "u\tt" 3 noErr
        ⟨[], 0⟩ = cdata Method.POST ⟨some "S", some "all", some "ATTLOG"⟩
        "u\tt" 3 noErr ⟨[], 0⟩ ∧
    cdata Method.POST ⟨none, some "all", none⟩ "u\tt" 3 noErr ⟨[], 0⟩ =
      ("OK", ⟨[], 0⟩) ∧
    cdata Method.GET ⟨none, none, some "ATTLOG"⟩ "" 3 noErr ⟨[], 0⟩ =
      ("OK", ⟨[], 0⟩) :=
  ⟨(C5_classification ⟨some "S", some "all", some "AttLog"⟩ "u\tt" 3 noErr
      ⟨[], 0⟩).1 (by decide),
   (C5_classification ⟨some "S", some "all", none⟩ "u\tt" 3 noErr
      ⟨[], 0⟩).2.1 "attlog" "ATTLOG" (by decide),
   ((C5_classification ⟨none, some "all", none⟩ "u\tt" 3 noErr
      ⟨[], 0⟩).2.2.1 rfl).2,
   (C5_classification ⟨none, none, some "ATTLOG"⟩ "" 3 noErr
      ⟨[], 0⟩).2.2.2 (by decide)⟩

/-- C6 counterexample: the body a TAB TAB b decodes to one accepted
record whose punch_time is the empty string, so not every constructed
PunchRecord has a non-empty punch_time. -/
theorem C6_counterexample :
    ¬ ∀ p ∈ (decode "a\t\tb").1, p.punch_time ≠ "" := by
  decide

/-- C6 amended: every record the decoder constructs has a non-empty
user_id, and its punch_time is the second tab field of its line passed
through verbatim, with no validation, so it may be empty. -/
theorem C6_amended_user_id (body : String) (p : PunchRecord)
    (hp : p ∈ (decode body).1) :
    p.user_id ≠ "" ∧
      ∃ ln ∈ strippedLines body, ∃ rest,
        splitTab ln = p.user_id :: p.punch_time :: rest := by
  unfold decode at hp
  rw [decodeLines_eq] at hp
  have hp' : p ∈ (strippedLines body).filterMap parseLine := hp
  refine ⟨(userId_ok body p hp').1, ?_⟩
  obtain ⟨ln, hln, hparse⟩ := List.mem_filterMap.mp hp'
  obtain ⟨rest, hrest⟩ := parseLine_eq_some ln p hparse
  exact ⟨ln, hln, rest, hrest⟩

/-- C6 amended witness: a concrete accepted record. -/
theorem C6_amended_user_id_witness :
    (⟨"a", "b"⟩ : PunchRecord).user_id ≠ "" ∧
      ∃ ln ∈ strippedLines "a\tb", ∃ rest,
        splitTab ln = (⟨"a", "b"⟩ : PunchRecord).user_id ::
          (⟨"a", "b"⟩ : PunchRecord).punch_time :: rest :=
  C6_amended_user_id "a\tb" ⟨"a", "b"⟩ (by decide)

/-- C7: OpStamp is the server time, hence numerically non-decreasing
across handshakes issued at increasing times. -/
theorem C7_opstamp_monotone (args : Args) (body₁ body₂ : String)
    (t₁ t₂ : Nat) (o₁ o₂ : DbOracle) (st₁ st₂ : Store)
    (hopt : args.options = some "all")
    (hsn : ∀ c ∈ (args.SN.getD "UNKNOWN").data, c ≠ '\n')
    (h12 : t₁ ≤ t₂) :
    ∃ v₁ v₂ : Nat,
      (splitNl (cdata Method.GET args body₁ t₁ o₁ st₁).1)[2]? =
        some ("OpStamp=" ++ toString v₁) ∧
      (splitNl (cdata Method.GET args body₂ t₂ o₂ st₂).1)[2]? =
        some ("OpStamp=" ++ toString v₂) ∧
      v₁ ≤ v₂ := by
  refine ⟨t₁, t₂, ?_, ?_, h12⟩
  · rw [cdata_get_handshake args body₁ t₁ o₁ st₁ hopt,
      splitNl_joinNl _ (by simp [handshakeLines]) (handshakeLines_no_nl _ t₁ hsn)]
    rfl
  · rw [cdata_get_handshake args body₂ t₂ o₂ st₂ hopt,
      splitNl_joinNl _ (by simp [handshakeLines]) (handshakeLines_no_nl _ t₂ hsn)]
    rfl

/-- C7 witness: two concrete handshakes at times 3 and 8. -/
theorem C7_opstamp_monotone_witness :
    ∃ v₁ v₂ : Nat,
      (splitNl (cdata Method.GET ⟨some "S", some "all", none⟩ "" 3 noErr
        ⟨[], 0⟩).1)[2]? = some ("OpStamp=" ++ toString v₁) ∧
      (splitNl (cdata Method.GET ⟨some "S", some "all", none⟩ "" 8 noErr
        ⟨[], 0⟩).1)[2]? = some ("OpStamp=" ++ toString v₂) ∧
      v₁ ≤ v₂ :=
  C7_opstamp_monotone ⟨some "S", some "all", none⟩ "" "" 3 8 noErr noErr
    ⟨[], 0⟩ ⟨[], 0⟩ rfl (by decide) (by omega)

/-- C8: only a POST whose upper-cased table is ATTLOG can change the
store; every other cdata request, the heartbeat and the fallback leave it
untouched. -/
theorem C8_frame (m : Method) (args : Args) (body : String) (now : Nat)
    (o : DbOracle) (st : Store)
    (h : ¬(m = Method.POST ∧ pyUpper (args.table.getD "") = "ATTLOG")) :
    (cdata m args body now o st).2 = st ∧
    (getrequest st).2 = st ∧ (root st).2 = st := by
  refine ⟨?_, rfl, rfl⟩
  cases m with
  | GET =>
    by_cases hopt : args.options = some "all"
    · rw [cdata_get_handshake args body now o st hopt]
    · rw [cdata_get_other args body now o st hopt]
  | POST =>
    have htab : pyUpper (args.table.getD "") ≠ "ATTLOG" := by
      intro hx
      exact h ⟨rfl, hx⟩
    rw [cdata_post_other args body now o st htab]

/-- C8 witness: an OPERLOG upload with a non-empty body stores nothing. -/
theorem C8_frame_witness :
    (cdata Method.POST ⟨some "S", none, some "OPERLOG"⟩ "u\tt" 3 noErr
      ⟨[], 0⟩).2 = ⟨[], 0⟩ ∧
    (getrequest ⟨[], 0⟩).2 = ⟨[], 0⟩ ∧ (root ⟨[], 0⟩).2 = ⟨[], 0⟩ :=
  C8_frame Method.POST ⟨some "S", none, some "OPERLOG"⟩ "u\tt" 3 noErr
    ⟨[], 0⟩ (by decide)

/-- C9: any row a request adds to the store has a non-empty user_id that
contains no tab and does not start with a whitespace character, because
lines are stripped before the tab split and short splits are skipped. -/
theorem C9_user_id_shape (m : Method) (args : Args) (body : String)
    (now : Nat) (o : DbOracle) (st : Store) (r : Row)
    (hr : r ∈ (cdata m args body now o st).2.rows) :
    r ∈ st.rows ∨
      (r.user_id ≠ "" ∧ '\t' ∉ r.user_id.data ∧
        ∀ c cs, r.user_id.data = c :: cs → isSpace c = false) := by
  rcases cdata_new_row m args body now o st r hr with h | ⟨p, hp, hu, _⟩
  · exact Or.inl h
  · right
    rw [hu]
    exact userId_ok body p hp

/-- C9 witness: a row inserted from a line with surrounding blanks. -/
theorem C9_user_id_shape_witness :
    (⟨0, "u", "t", "S", 0, 3⟩ : Row) ∈ (⟨[], 0⟩ : Store).rows ∨
      ((⟨0, "u", "t", "S", 0, 3⟩ : Row).user_id ≠ "" ∧
        '\t' ∉ (⟨0, "u", "t", "S", 0, 3⟩ : Row).user_id.data ∧
        ∀ c cs, (⟨0, "u", "t", "S", 0, 3⟩ : Row).user_id.data = c :: cs →
          isSpace c = false) :=
  C9_user_id_shape Method.POST ⟨some "S", none, some "ATTLOG"⟩ " u\tt \n" 3
    noErr ⟨[], 0⟩ ⟨0, "u", "t", "S", 0, 3⟩ (by decide)

/-- C10: every row an ATTLOG upload inserts carries the device serial of
the request, the SN query parameter or UNKNOWN when SN is absent. -/
theorem C10_device_serial (m : Method) (args : Args) (body : String)
    (now : Nat) (o : DbOracle) (st : Store) (r : Row)
    (hr : r ∈ (cdata m args body now o st).2.rows) :
    r ∈ st.rows ∨ r.device_serial = args.SN.getD "UNKNOWN" := by
  rcases cdata_new_row m args body now o st r hr with h | ⟨p, _, _, _, hsn, _⟩
  · exact Or.inl h
  · exact Or.inr hsn

/-- C10 witness: an upload with SN absent stores the UNKNOWN sentinel. -/
theorem C10_device_serial_witness :
    (⟨0, "u", "t", "UNKNOWN", 0, 3⟩ : Row) ∈ (⟨[], 0⟩ : Store).rows ∨
      (⟨0, "u", "t", "UNKNOWN", 0, 3⟩ : Row).device_serial =
        (⟨none, none, some "ATTLOG"⟩ : Args).SN.getD "UNKNOWN" :=
  C10_device_serial Method.POST ⟨none, none, some "ATTLOG"⟩ "u\tt" 3 noErr
    ⟨[], 0⟩ ⟨0, "u", "t", "UNKNOWN", 0, 3⟩ (by decide)

end Attendance

